import Mathlib

set_option maxRecDepth 8000

/-!
Verification development for the `extrude_png` repository.

The repository converts a PNG pixel buffer into a binary STL mesh:
thresholding the pixels into a binary mask (`createMask`), optionally
resampling the mask to a pixel budget (`pipelineMask`), extruding each
foreground cell into a cuboid with internal-face culling (`extrude`), and
serializing the triangles into the binary STL byte layout
(`meshTrianglesToBinarySTL`).

All definitions are shallow embeddings of the JavaScript source
(`src/index.js` and `src/public/png-to-stl.js`).  JavaScript numbers are
modelled by `ℚ` (the arithmetic performed by the source on the inputs
considered here is exact in IEEE doubles, see the comments on the
individual definitions); byte buffers are modelled by `List Nat`;
`Uint8Array` masks of 0/1 entries are modelled by `List Bool`.
-/

namespace ExtrudePng

/-! ## Mask builder (src/index.js lines 129-144, png-to-stl.js createMask) -/

/-- Gray value of pixel `(x, y)` of a flat RGBA byte buffer `pdata` of row
width `w`.  Mirrors
`const i = (y*w + x)*4; const gray = a === 0 ? 255 : Math.round((r+g+b)/3)`.
For naturals `r+g+b ≤ 765` the double computation `Math.round((r+g+b)/3)`
is exactly round-to-nearest of the rational `(r+g+b)/3` (no tie can occur
since the fractional part is `0`, `1/3` or `2/3`), which equals the natural
number `(r+g+b+1)/3`; this identity is proved in `jsRound3_eq_round`. -/
def grayAt (pdata : Nat → Nat) (w x y : Nat) : Nat :=
  let i := (y * w + x) * 4
  let r := pdata i
  let g := pdata (i + 1)
  let b := pdata (i + 2)
  let a := pdata (i + 3)
  if a = 0 then 255 else (r + g + b + 1) / 3

/-- Row-major grid fill: the nested loop
`for (y...) for (x...) out[y*w + x] = f(x, y)` writing into a flat array,
modelled as a flat list of length `h*w`. -/
def mkGrid (w h : Nat) (f : Nat → Nat → Bool) : List Bool :=
  (List.range h).flatMap fun y => (List.range w).map fun x => f x y

/-- Mask builder at full resolution (src/index.js lines 130-143,
png-to-stl.js `createMask`): cell `(x, y)` is foreground iff
`gray < threshold`. -/
def createMask (pdata : Nat → Nat) (w h threshold : Nat) : List Bool :=
  mkGrid w h fun x y => decide (grayAt pdata w x y < threshold)

/-- Flat-array cell lookup `mask[y*w + x]`, with JavaScript's
out-of-range-read-is-falsy behaviour (`undefined` is falsy, and
`undefined === 1` is `false`) modelled by the default `false`. -/
def maskAt (mask : List Bool) (w x y : Nat) : Bool :=
  mask.getD (y * w + x) false

/-! ## Resampler (src/index.js lines 108-128) -/

/-- JavaScript `Math.round`: round half toward positive infinity. -/
def jsRound (q : ℚ) : ℤ := ⌊q + 1 / 2⌋

/-- Resampled mask dimensions (src/index.js lines 112-114):
`scaleRatio = maxPx / max(origW, origH)`,
`maskW = Math.max(1, Math.round(origW * scaleRatio))` and likewise for the
height. -/
def resampleDims (origW origH maxPx : Nat) : Nat × Nat :=
  let scaleR : ℚ := (maxPx : ℚ) / (max origW origH : ℚ)
  (max 1 (jsRound ((origW : ℚ) * scaleR)).toNat,
   max 1 (jsRound ((origH : ℚ) * scaleR)).toNat)

/-- Resampling mask construction (src/index.js lines 115-128): each output
cell `(x2, y2)` samples the original colour buffer at
`srcX = Math.min(origW-1, Math.floor(x2*origW/maskW))`,
`srcY = Math.min(origH-1, Math.floor(y2*origH/maskH))` and applies the
gray/threshold rule.  `Math.floor` of the double quotient of naturals below
`2^53` is natural-number division. -/
def downsampleMask (pdata : Nat → Nat) (origW origH threshold maxPx : Nat) :
    List Bool :=
  mkGrid (resampleDims origW origH maxPx).1 (resampleDims origW origH maxPx).2
    fun x2 y2 =>
      decide (grayAt pdata origW
        (min (origW - 1) (x2 * origW / (resampleDims origW origH maxPx).1))
        (min (origH - 1) (y2 * origH / (resampleDims origW origH maxPx).2))
        < threshold)

/-- Mask stage of the pipeline (src/index.js lines 108-144): resample iff
`options.max_px` is truthy (nonzero) and `Math.max(origW, origH) >
options.max_px`; inside the branch the budget is clamped by
`Math.max(1, Math.floor(options.max_px))`.  Returns
`(maskW, maskH, mask)`. -/
def pipelineMask (pdata : Nat → Nat) (origW origH threshold maxPx : Nat) :
    Nat × Nat × List Bool :=
  if 0 < maxPx ∧ max origW origH > maxPx then
    ((resampleDims origW origH (max 1 maxPx)).1,
     (resampleDims origW origH (max 1 maxPx)).2,
     downsampleMask pdata origW origH threshold (max 1 maxPx))
  else
    (origW, origH, createMask pdata origW origH threshold)

/-! ## Size estimator (src/index.js lines 67-97, png-to-stl.js
`estimateMaxPxFromTargetMB`) -/

/-- Foreground-pixel count at original resolution (src/index.js lines
72-83): the nested counting loop, row by row. -/
def blackCount (pdata : Nat → Nat) (w h threshold : Nat) : Nat :=
  ((List.range h).map fun y =>
    ((List.range w).filter fun x =>
      decide (grayAt pdata w x y < threshold)).length).sum

/-- Model of JavaScript `Math.sqrt` on the rationals: zero on nonpositive
inputs, and otherwise the componentwise integer square root of the
numerator and denominator.  `Math.sqrt` itself returns the correctly
rounded double square root, which is irrational-valued in general; no
claim proved in this file depends on the value of a square root beyond
its sign, and the size
estimator claim is compared formula-to-formula under this same model. -/
def jsSqrt (q : ℚ) : ℚ :=
  if q ≤ 0 then 0 else (Nat.sqrt q.num.toNat : ℚ) / (Nat.sqrt q.den : ℚ)

/-- Size estimator (src/index.js lines 67-97): from a target byte size `S`
(the source receives megabytes and multiplies by `1024*1024` first; `S`
here is that product) back-solve a pixel budget.  `1e-6` is modelled by
its exact decimal value `1/1000000`.  Integer-valued `Math.floor`
applications are kept as floors of the rational computation. -/
def estimateMaxPx (S : ℚ) (pdata : Nat → Nat) (w h threshold : Nat) : Nat :=
  let targetBytes : ℤ := max 1 ⌊S⌋
  let desiredTri : ℤ := max 1 ⌊((targetBytes : ℚ) - 84) / 50⌋
  let origBlack : Nat := blackCount pdata w h threshold
  let estOrigTriangles : ℤ := max 1 ⌊(origBlack : ℚ) * 6⌋
  if estOrigTriangles ≤ desiredTri then
    max w h
  else
    let r : ℚ := (desiredTri : ℚ) / (estOrigTriangles : ℚ)
    let linearScale : ℚ := jsSqrt (max (1 / 1000000) r)
    max 1 (⌊(max w h : ℚ) * linearScale⌋).toNat

/-! ## Scale factor (src/index.js lines 149-155) -/

/-- Default scale, millimeters per pixel (src/index.js line 9). -/
def SCALE_MM_PER_PX : ℚ := 2645833333 / 10000000000

/-- Original (pre-resample) scale factor (src/index.js lines 151-154):
`width_mm / origW` if `options.width_mm` is truthy, else
`height_mm / origH` if `options.height_mm` is truthy, else the default.
Absent or falsy options are modelled by `none`. -/
def originalScale (width_mm height_mm : Option ℚ) (origW origH : Nat) : ℚ :=
  match width_mm, height_mm with
  | some wmm, _ => wmm / (origW : ℚ)
  | none, some hmm => hmm / (origH : ℚ)
  | none, none => SCALE_MM_PER_PX

/-- Effective scale used by the extruder (src/index.js line 155):
`effectiveScale = originalScale * (origW / maskW)` — always the width
ratio, whichever input drove the original scale. -/
def effectiveScale (width_mm height_mm : Option ℚ) (origW origH maskW : Nat) :
    ℚ :=
  originalScale width_mm height_mm origW origH * ((origW : ℚ) / (maskW : ℚ))

/-! ## Grid access lemmas -/

theorem mkGrid_length (w h : Nat) (f : Nat → Nat → Bool) :
    (mkGrid w h f).length = h * w := by
  induction h with
  | zero => simp [mkGrid]
  | succ n ih =>
    simp only [mkGrid, List.range_succ, List.flatMap_append] at *
    simp [List.length_append, ih, Nat.succ_mul]

theorem mkGrid_getD (w h : Nat) (f : Nat → Nat → Bool) {x y : Nat}
    (hx : x < w) (hy : y < h) :
    (mkGrid w h f).getD (y * w + x) false = f x y := by
  induction h with
  | zero => omega
  | succ n ih =>
    simp only [mkGrid, List.range_succ, List.flatMap_append] at *
    rcases Nat.lt_or_ge y n with hyn | hyn
    · rw [List.getD_append]
      · exact ih hyn
      · have : (mkGrid w n f).length = n * w := mkGrid_length w n f
        simp only [mkGrid] at this
        rw [this]
        calc y * w + x < y * w + w := by omega
          _ = (y + 1) * w := by ring
          _ ≤ n * w := Nat.mul_le_mul_right w (by omega)
    · have hyeq : y = n := by omega
      subst hyeq
      rw [List.getD_append_right]
      · have hlen : (mkGrid w y f).length = y * w := mkGrid_length w y f
        simp only [mkGrid] at hlen
        rw [hlen]
        have hidx : y * w + x - y * w = x := by omega
        rw [hidx, List.flatMap_singleton,
          List.getD_eq_getElem _ _ (by simpa using hx)]
        simp
      · have hlen : (mkGrid w y f).length = y * w := mkGrid_length w y f
        simp only [mkGrid] at hlen
        omega

/-! ## Mesh extruder (src/index.js lines 156-196, png-to-stl.js
`generateTriangles`) -/

/-- A 3D vertex; JS arrays `[x, y, z]` of doubles. -/
structure Vec3 where
  x : ℚ
  y : ℚ
  z : ℚ
deriving DecidableEq

/-- A triangle `[v0, v1, v2]`. -/
structure Tri where
  v0 : Vec3
  v1 : Vec3
  v2 : Vec3
deriving DecidableEq

/-- Triangles emitted for one cell of the loop body of src/index.js lines
156-195: nothing for a background cell; for a foreground cell the two top
and two bottom triangles followed by a two-triangle quad for each of the
four sides whose guard holds.  Note the boundary guards `x === 0`,
`x === maskW - 1`, `y === maskH - 1`, `y === 0` short-circuit the
neighbour lookups, so the (total) natural subtraction in `maskAt mask w
(x - 1) y` is only reached when `x ≠ 0`, matching the source. -/
def cellTriangles (mask : List Bool) (w h : Nat) (scale thickness : ℚ)
    (x y : Nat) : List Tri :=
  if maskAt mask w x y = false then [] else
  let x0 : ℚ := (x : ℚ) * scale
  let x1 : ℚ := ((x : ℚ) + 1) * scale
  let y0 : ℚ := ((h : ℚ) - (y : ℚ) - 1) * scale
  let y1 : ℚ := ((h : ℚ) - (y : ℚ)) * scale
  let zTop := thickness
  let zBot : ℚ := 0
  let c00 : Vec3 := ⟨x0, y0, zTop⟩
  let c10 : Vec3 := ⟨x1, y0, zTop⟩
  let c11 : Vec3 := ⟨x1, y1, zTop⟩
  let c01 : Vec3 := ⟨x0, y1, zTop⟩
  let b00 : Vec3 := ⟨x0, y0, zBot⟩
  let b10 : Vec3 := ⟨x1, y0, zBot⟩
  let b11 : Vec3 := ⟨x1, y1, zBot⟩
  let b01 : Vec3 := ⟨x0, y1, zBot⟩
  [⟨c01, c11, c10⟩, ⟨c01, c10, c00⟩, ⟨b11, b01, b00⟩, ⟨b11, b00, b10⟩]
    ++ (if x = 0 ∨ maskAt mask w (x - 1) y = false then
          [⟨c01, b01, b00⟩, ⟨c01, b00, c00⟩] else [])
    ++ (if x = w - 1 ∨ maskAt mask w (x + 1) y = false then
          [⟨c10, b10, b11⟩, ⟨c10, b11, c11⟩] else [])
    ++ (if y = h - 1 ∨ maskAt mask w x (y + 1) = false then
          [⟨c00, b00, b10⟩, ⟨c00, b10, c10⟩] else [])
    ++ (if y = 0 ∨ maskAt mask w x (y - 1) = false then
          [⟨c11, b11, b01⟩, ⟨c11, b01, c01⟩] else [])

/-- Node-side extruder (src/index.js lines 156-196): row-major double loop
accumulating `cellTriangles`. -/
def extrude (mask : List Bool) (w h : Nat) (scale thickness : ℚ) :
    List Tri :=
  (List.range h).flatMap fun y =>
    (List.range w).flatMap fun x =>
      cellTriangles mask w h scale thickness x y

/-- Browser-side neighbour test (png-to-stl.js lines 192-195):
`idx(x, y)` returns `false` out of bounds, else `mask[y*width + x] === 1`.
Arguments are integers because the browser extruder calls it at `x - 1`
and `y - 1`, which can be `-1`. -/
def idxB (mask : List Bool) (w h : Nat) (x y : Int) : Bool :=
  if x < 0 ∨ (w : Int) ≤ x ∨ y < 0 ∨ (h : Int) ≤ y then false
  else maskAt mask w x.toNat y.toNat

/-- Triangles emitted for one cell of the browser-side loop body
(png-to-stl.js lines 197-248): identical corner and triangle construction,
with every guard expressed through `idx`. -/
def cellTrianglesB (mask : List Bool) (w h : Nat) (scale thickness : ℚ)
    (x y : Nat) : List Tri :=
  if idxB mask w h (x : Int) (y : Int) = false then [] else
  let x0 : ℚ := (x : ℚ) * scale
  let x1 : ℚ := ((x : ℚ) + 1) * scale
  let y0 : ℚ := ((h : ℚ) - (y : ℚ) - 1) * scale
  let y1 : ℚ := ((h : ℚ) - (y : ℚ)) * scale
  let zTop := thickness
  let zBot : ℚ := 0
  let c00 : Vec3 := ⟨x0, y0, zTop⟩
  let c10 : Vec3 := ⟨x1, y0, zTop⟩
  let c11 : Vec3 := ⟨x1, y1, zTop⟩
  let c01 : Vec3 := ⟨x0, y1, zTop⟩
  let b00 : Vec3 := ⟨x0, y0, zBot⟩
  let b10 : Vec3 := ⟨x1, y0, zBot⟩
  let b11 : Vec3 := ⟨x1, y1, zBot⟩
  let b01 : Vec3 := ⟨x0, y1, zBot⟩
  [⟨c01, c11, c10⟩, ⟨c01, c10, c00⟩, ⟨b11, b01, b00⟩, ⟨b11, b00, b10⟩]
    ++ (if idxB mask w h ((x : Int) - 1) (y : Int) = false then
          [⟨c01, b01, b00⟩, ⟨c01, b00, c00⟩] else [])
    ++ (if idxB mask w h ((x : Int) + 1) (y : Int) = false then
          [⟨c10, b10, b11⟩, ⟨c10, b11, c11⟩] else [])
    ++ (if idxB mask w h (x : Int) ((y : Int) + 1) = false then
          [⟨c00, b00, b10⟩, ⟨c00, b10, c10⟩] else [])
    ++ (if idxB mask w h (x : Int) ((y : Int) - 1) = false then
          [⟨c11, b11, b01⟩, ⟨c11, b01, c01⟩] else [])

/-- Browser-side extruder (png-to-stl.js `generateTriangles`). -/
def extrudeB (mask : List Bool) (w h : Nat) (scale thickness : ℚ) :
    List Tri :=
  (List.range h).flatMap fun y =>
    (List.range w).flatMap fun x =>
      cellTrianglesB mask w h scale thickness x y

/-! ## Spec-side gray formula and the rounding bridge -/

/-- Modelled from the spec's words (section 4.1 of the spec, and claim
C2): the gray value is `255` when alpha is exactly `0`, and otherwise
`round((R+G+B)/3)` with rounding to nearest, here Mathlib's `round` on
`ℚ` (no tie ever occurs at thirds, so the tie-breaking direction is
immaterial). -/
def specGray (r g b a : Nat) : ℤ :=
  if a = 0 then 255 else round (((r : ℚ) + (g : ℚ) + (b : ℚ)) / 3)

theorem jsRound3_eq_round (s : Nat) :
    (((s + 1) / 3 : Nat) : ℤ) = round ((s : ℚ) / 3) := by
  obtain ⟨q, r, hr, rfl⟩ : ∃ q r, r < 3 ∧ s = 3 * q + r :=
    ⟨s / 3, s % 3, Nat.mod_lt s (by omega), by omega⟩
  have hcast : ((3 * q + r : Nat) : ℚ) / 3
      = ((r : Nat) : ℚ) / 3 + ((q : ℤ) : ℚ) := by
    push_cast
    ring
  rw [hcast, round_add_int]
  interval_cases r
  · norm_num [round_eq]
    omega
  · norm_num [round_eq]
    omega
  · rw [show (((2 : ℕ) : ℚ)) = 2 by norm_num,
      show round ((2 : ℚ) / 3) = 1 by norm_num [round_eq]]
    omega

/-! ## Binary STL serializer (src/index.js lines 319-355, png-to-stl.js
`trianglesToBinarySTL`) -/

/-- Little-endian 16-bit write, `buf.writeUInt16LE`. -/
def u16le (n : Nat) : List Nat := [n % 256, n / 256 % 256]

/-- Little-endian 16-bit read of the first two bytes. -/
def u16dec (b : List Nat) : Nat := b.getD 0 0 + 256 * b.getD 1 0

/-- Little-endian 32-bit write, `buf.writeUInt32LE` (the source value is
below `2^32`, as `writeUInt32LE` throws a `RangeError` otherwise). -/
def u32le (n : Nat) : List Nat :=
  [n % 256, n / 256 % 256, n / 65536 % 256, n / 16777216 % 256]

/-- Little-endian 32-bit read of the first four bytes. -/
def u32dec (b : List Nat) : Nat :=
  b.getD 0 0 + 256 * b.getD 1 0 + 65536 * b.getD 2 0 + 16777216 * b.getD 3 0

/-- Round a rational to the nearest integer, ties to even — the rounding
used by IEEE-754 `writeFloatLE` when narrowing a double to binary32. -/
def rne (x : ℚ) : ℤ :=
  if x - ⌊x⌋ < 1 / 2 then ⌊x⌋
  else if 1 / 2 < x - ⌊x⌋ then ⌊x⌋ + 1
  else if ⌊x⌋ % 2 = 0 then ⌊x⌋ else ⌊x⌋ + 1

/-- An IEEE-754 binary32 bit pattern, split into its three fields:
sign, biased exponent (8 bits) and mantissa field (23 bits). -/
structure F32 where
  sign : Bool
  ex : Nat
  man : Nat
deriving DecidableEq

/-- Binary exponent of a nonzero rational: the floor of its base-2
logarithm. -/
def expOf (q : ℚ) : ℤ := Int.log 2 |q|

/-- Scaling exponent of the binary32 narrowing of `q`: `expOf q - 23` for
normal magnitudes, clamped at `-149` (the subnormal quantum) below. -/
def shiftOf (q : ℚ) : ℤ := max (expOf q - 23) (-149)

/-- Scaled significand of the binary32 narrowing of `q`: the magnitude in
units of `2^(shiftOf q)`, rounded to nearest even. -/
def mOf (q : ℚ) : ℤ := rne (|q| / (2 : ℚ) ^ shiftOf q)

/-- Narrow a rational to binary32 (the conversion performed by
`buf.writeFloatLE`): round-to-nearest-even at the appropriate exponent,
with subnormals below `2^(-126)` and overflow to the infinity pattern
(the overflow branches are unreachable for the magnitudes hypothesised in
the theorems below).  `8388608 = 2^23` and `16777216 = 2^24`. -/
def toF32 (q : ℚ) : F32 :=
  if q = 0 then ⟨false, 0, 0⟩
  else if mOf q < 8388608 then ⟨decide (q < 0), 0, (mOf q).toNat⟩
  else if mOf q < 16777216 then
    if 255 ≤ shiftOf q + 150 then ⟨decide (q < 0), 255, 0⟩
    else ⟨decide (q < 0), (shiftOf q + 150).toNat, (mOf q - 8388608).toNat⟩
  else
    if 255 ≤ shiftOf q + 151 then ⟨decide (q < 0), 255, 0⟩
    else ⟨decide (q < 0), (shiftOf q + 151).toNat, 0⟩

/-- Pack the three binary32 fields into the 32-bit word
`sign·2^31 + ex·2^23 + man` (`2147483648 = 2^31`). -/
def f32bitsOf (f : F32) : Nat :=
  (cond f.sign 1 0) * 2147483648 + f.ex * 8388608 + f.man

/-- Magnitude of a binary32 bit pattern given by its fields: subnormal
`man·2^(-149)` when the biased exponent is zero, else normal
`(2^23 + man)·2^(ex - 150)`.  (The exponent-255 infinity/NaN patterns are
outside the rational model and are given by the same normal formula;
nothing proved below ever decodes them.) -/
def f32mag (ex man : Nat) : ℚ :=
  if ex = 0 then (man : ℚ) * (2 : ℚ) ^ (-149 : ℤ)
  else ((8388608 + man : Nat) : ℚ) * (2 : ℚ) ^ ((ex : ℤ) - 150)

/-- Signed value of a binary32 bit pattern. -/
def f32val (sign : Bool) (ex man : Nat) : ℚ :=
  if sign then -f32mag ex man else f32mag ex man

/-- Read a binary32 value from the first four bytes, little-endian
(`readFloatLE`). -/
def f32decBytes (b : List Nat) : ℚ :=
  f32val (decide (u32dec b / 2147483648 % 2 = 1)) (u32dec b / 8388608 % 256)
    (u32dec b % 8388608)

/-- Four little-endian bytes of the binary32 narrowing of a rational:
the effect of `buf.writeFloatLE(q, ...)`. -/
def f32le (q : ℚ) : List Nat := u32le (f32bitsOf (toF32 q))

/-- Cross product `(v1 - v0) × (v2 - v0)` computed by the serializer
(src/index.js lines 333-341). -/
def crossN (t : Tri) : ℚ × ℚ × ℚ :=
  let ux := t.v1.x - t.v0.x
  let uy := t.v1.y - t.v0.y
  let uz := t.v1.z - t.v0.z
  let vx := t.v2.x - t.v0.x
  let vy := t.v2.y - t.v0.y
  let vz := t.v2.z - t.v0.z
  (uy * vz - uz * vy, uz * vx - ux * vz, ux * vy - uy * vx)

/-- Length of the cross product, `Math.sqrt(nx*nx + ny*ny + nz*nz)`
(src/index.js line 342), under the `jsSqrt` model. -/
def crossLen (t : Tri) : ℚ :=
  jsSqrt ((crossN t).1 * (crossN t).1 + (crossN t).2.1 * (crossN t).2.1
    + (crossN t).2.2 * (crossN t).2.2)

/-- The guarded normal length `Math.sqrt(...) || 1` (src/index.js line
342): JavaScript `||` replaces the falsy value `0` by `1`. -/
def stlNl (t : Tri) : ℚ := if crossLen t = 0 then 1 else crossLen t

/-- The normal direction emitted for a triangle,
`(nx/nl, ny/nl, nz/nl)` (src/index.js lines 343-345). -/
def stlNormal (t : Tri) : ℚ × ℚ × ℚ :=
  ((crossN t).1 / stlNl t, (crossN t).2.1 / stlNl t, (crossN t).2.2 / stlNl t)

/-- The nine vertex coordinates of a triangle in serialization order
(v0, v1, v2, each x then y then z; src/index.js lines 347-351). -/
def triCoords (t : Tri) : List ℚ :=
  [t.v0.x, t.v0.y, t.v0.z, t.v1.x, t.v1.y, t.v1.z, t.v2.x, t.v2.y, t.v2.z]

/-- The twelve float fields of a triangle record in order: the three
normal components, then the nine vertex coordinates. -/
def triFields (t : Tri) : List ℚ :=
  [(stlNormal t).1, (stlNormal t).2.1, (stlNormal t).2.2] ++ triCoords t

/-- One 50-byte triangle record (src/index.js lines 329-352): twelve
float32 little-endian fields followed by the 2-byte attribute count 0. -/
def triRecord (t : Tri) : List Nat :=
  (triFields t).flatMap f32le ++ u16le 0

/-- The 80-byte header: the name bytes truncated to 80, zero-padded
(src/index.js lines 321-322, `Buffer.alloc` zero-fills). -/
def header80 (name : List Nat) : List Nat :=
  name.take 80 ++ List.replicate (80 - (name.take 80).length) 0

/-- Binary STL serializer (src/index.js `meshTrianglesToBinarySTL`):
80-byte header, 4-byte little-endian triangle count, then the 50-byte
records in order. -/
def meshTrianglesToBinarySTL (triangles : List Tri) (name : List Nat) :
    List Nat :=
  header80 name ++ u32le triangles.length ++ triangles.flatMap triRecord

/-- Tail of `generate` (src/index.js lines 156-200): extrude the mask,
throw `'No black regions detected'` when no triangles were produced
(before any file write), else serialize.  The `Except` models the
throw/write control flow: an error means `fs.writeFileSync` is never
reached. -/
def generatePipeline (mask : List Bool) (w h : Nat) (scale thickness : ℚ)
    (name : List Nat) : Except String (List Nat) :=
  let triangles := extrude mask w h scale thickness
  if triangles.length = 0 then Except.error "No black regions detected"
  else Except.ok (meshTrianglesToBinarySTL triangles name)

/-! ## Generic list helpers -/

theorem flatMapCongr {α β : Type} {l : List α} {f g : α → List β}
    (h : ∀ a ∈ l, f a = g a) : l.flatMap f = l.flatMap g := by
  induction l with
  | nil => rfl
  | cons a t ih =>
    simp only [List.flatMap_cons]
    rw [h a (by simp), ih fun b hb => h b (by simp [hb])]

theorem flatMapNil {α β : Type} {l : List α} {f : α → List β}
    (h : ∀ a ∈ l, f a = []) : l.flatMap f = [] := by
  induction l with
  | nil => rfl
  | cons a t ih =>
    simp only [List.flatMap_cons]
    rw [h a (by simp), ih fun b hb => h b (by simp [hb])]
    rfl

theorem count_true_map (l : List Nat) (g : Nat → Bool) :
    (l.map g).count true = (l.filter g).length := by
  induction l with
  | nil => rfl
  | cons a t ih =>
    simp only [List.map_cons, List.count_cons, List.filter_cons]
    cases hg : g a <;> simp [ih]

theorem sum_map_range_single (f : Nat → Nat) (c k n : Nat) (hk : k < n)
    (hf : ∀ i, i < n → f i = if i = k then c else 0) :
    ((List.range n).map f).sum = c := by
  induction n with
  | zero => omega
  | succ m ih =>
    rw [List.range_succ, List.map_append, List.sum_append]
    rcases Nat.lt_or_ge k m with hkm | hkm
    · rw [ih hkm fun i hi => hf i (by omega)]
      have hm : f m = 0 := by rw [hf m (by omega), if_neg (by omega)]
      simp [hm]
    · have hkm' : k = m := by omega
      subst hkm'
      have h0 : ((List.range k).map f).sum = 0 := by
        apply List.sum_eq_zero
        intro v hv
        obtain ⟨i, hi, rfl⟩ := List.mem_map.mp hv
        rw [hf i (by simp at hi; omega), if_neg (by simp at hi; omega)]
      rw [h0]
      simp [hf k (by omega)]

/-! ## Extruder lemmas -/

theorem extrude_empty (mask : List Bool) (w h : Nat) (scale thickness : ℚ)
    (hempty : ∀ x, x < w → ∀ y, y < h → maskAt mask w x y = false) :
    extrude mask w h scale thickness = [] := by
  unfold extrude
  apply flatMapNil
  intro y hy
  apply flatMapNil
  intro x hx
  unfold cellTriangles
  rw [if_pos (hempty x (List.mem_range.mp hx) y (List.mem_range.mp hy))]

theorem idxB_oob (mask : List Bool) (w h : Nat) (x y : Int)
    (hoob : x < 0 ∨ (w : Int) ≤ x ∨ y < 0 ∨ (h : Int) ≤ y) :
    idxB mask w h x y = false := by
  unfold idxB
  rw [if_pos hoob]

theorem idxB_in (mask : List Bool) (w h : Nat) {x y : Nat}
    (hx : x < w) (hy : y < h) :
    idxB mask w h (x : Int) (y : Int) = maskAt mask w x y := by
  unfold idxB
  rw [if_neg (by omega)]
  simp

theorem left_guard (mask : List Bool) (w h : Nat) {x y : Nat}
    (hx : x < w) (hy : y < h) :
    (x = 0 ∨ maskAt mask w (x - 1) y = false)
      = (idxB mask w h ((x : Int) - 1) (y : Int) = false) := by
  apply propext
  cases x with
  | zero =>
    rw [idxB_oob mask w h (((0 : ℕ) : Int) - 1) (y : Int)
      (Or.inl (by norm_num))]
    simp
  | succ k =>
    have hcast : ((k + 1 : ℕ) : Int) - 1 = (k : Int) := by push_cast; ring
    rw [hcast, idxB_in mask w h (by omega) hy, Nat.succ_sub_one]
    simp

theorem right_guard (mask : List Bool) (w h : Nat) {x y : Nat}
    (hx : x < w) (hy : y < h) :
    (x = w - 1 ∨ maskAt mask w (x + 1) y = false)
      = (idxB mask w h ((x : Int) + 1) (y : Int) = false) := by
  apply propext
  rcases Nat.lt_or_ge (x + 1) w with hxw | hxw
  · have hcast : ((x : ℤ) + 1) = ((x + 1 : ℕ) : ℤ) := by push_cast; ring
    rw [hcast, idxB_in mask w h hxw hy]
    constructor
    · rintro (hx1 | hx1)
      · omega
      · exact hx1
    · exact fun hx1 => Or.inr hx1
  · rw [idxB_oob mask w h ((x : Int) + 1) (y : Int)
      (Or.inr (Or.inl (by omega)))]
    simp
    omega

theorem bottom_guard (mask : List Bool) (w h : Nat) {x y : Nat}
    (hx : x < w) (hy : y < h) :
    (y = h - 1 ∨ maskAt mask w x (y + 1) = false)
      = (idxB mask w h (x : Int) ((y : Int) + 1) = false) := by
  apply propext
  rcases Nat.lt_or_ge (y + 1) h with hyh | hyh
  · have hcast : ((y : ℤ) + 1) = ((y + 1 : ℕ) : ℤ) := by push_cast; ring
    rw [hcast, idxB_in mask w h hx hyh]
    constructor
    · rintro (hy1 | hy1)
      · omega
      · exact hy1
    · exact fun hy1 => Or.inr hy1
  · rw [idxB_oob mask w h (x : Int) ((y : Int) + 1)
      (Or.inr (Or.inr (Or.inr (by omega))))]
    simp
    omega

theorem top_guard (mask : List Bool) (w h : Nat) {x y : Nat}
    (hx : x < w) (hy : y < h) :
    (y = 0 ∨ maskAt mask w x (y - 1) = false)
      = (idxB mask w h (x : Int) ((y : Int) - 1) = false) := by
  apply propext
  cases y with
  | zero =>
    rw [idxB_oob mask w h (x : Int) (((0 : ℕ) : Int) - 1)
      (Or.inr (Or.inr (Or.inl (by norm_num))))]
    simp
  | succ k =>
    have hcast : ((k + 1 : ℕ) : Int) - 1 = (k : Int) := by push_cast; ring
    rw [hcast, idxB_in mask w h hx (by omega), Nat.succ_sub_one]
    simp

theorem cellTriangles_eq (mask : List Bool) (w h : Nat)
    (scale thickness : ℚ) {x y : Nat} (hx : x < w) (hy : y < h) :
    cellTriangles mask w h scale thickness x y
      = cellTrianglesB mask w h scale thickness x y := by
  simp only [cellTriangles, cellTrianglesB, idxB_in mask w h hx hy,
    left_guard mask w h hx hy, right_guard mask w h hx hy,
    bottom_guard mask w h hx hy, top_guard mask w h hx hy]


/-! ## Binary32 lemmas -/

theorem rne_sub_abs_le (x : ℚ) : |(rne x : ℚ) - x| ≤ 1 / 2 := by
  unfold rne
  have h0 : (⌊x⌋ : ℚ) ≤ x := Int.floor_le x
  have h1 : x < ⌊x⌋ + 1 := Int.lt_floor_add_one x
  split_ifs with ha hb hc <;> rw [abs_le] <;> constructor <;> push_cast <;>
    linarith

theorem rne_nonneg (x : ℚ) (hx : 0 ≤ x) : 0 ≤ rne x := by
  have h0 : 0 ≤ ⌊x⌋ := Int.floor_nonneg.mpr hx
  unfold rne
  split_ifs <;> omega

theorem rne_ge_floor (x : ℚ) : ⌊x⌋ ≤ rne x := by
  unfold rne
  split_ifs <;> omega

theorem rne_le_floor_add_one (x : ℚ) : rne x ≤ ⌊x⌋ + 1 := by
  unfold rne
  split_ifs <;> omega

theorem rne_le_of_lt {x : ℚ} {n : ℤ} (h : x < (n : ℚ)) : rne x ≤ n := by
  have h1 : ⌊x⌋ < n := Int.floor_lt.mpr h
  have h2 := rne_le_floor_add_one x
  omega

theorem rne_ge_of_le {x : ℚ} {n : ℤ} (h : (n : ℚ) ≤ x) : n ≤ rne x := by
  have h1 : n ≤ ⌊x⌋ := Int.le_floor.mpr h
  have h2 := rne_ge_floor x
  omega

theorem zpow_two_cast : ((2 : ℕ) : ℚ) = (2 : ℚ) := by norm_num

theorem expOf_low (q : ℚ) (hq : q ≠ 0) : (2 : ℚ) ^ expOf q ≤ |q| := by
  have h : ((2 : ℕ) : ℚ) ^ Int.log 2 |q| ≤ |q| :=
    Int.zpow_log_le_self (by norm_num) (abs_pos.mpr hq)
  rwa [zpow_two_cast] at h

theorem expOf_high (q : ℚ) : |q| < (2 : ℚ) ^ (expOf q + 1) := by
  have h : |q| < ((2 : ℕ) : ℚ) ^ (Int.log 2 |q| + 1) :=
    Int.lt_zpow_succ_log_self (by norm_num) |q|
  rwa [zpow_two_cast] at h

theorem expOf_le_127 (q : ℚ) (hq : q ≠ 0) (hb : |q| ≤ 2 ^ 127) :
    expOf q ≤ 127 := by
  have hb' : |q| ≤ ((2 : ℕ) : ℚ) ^ (127 : ℤ) := by
    rw [zpow_two_cast, show ((127 : ℤ)) = ((127 : ℕ) : ℤ) from rfl,
      zpow_natCast]
    exact_mod_cast hb
  have h1 : Int.log 2 |q| ≤ Int.log 2 (((2 : ℕ) : ℚ) ^ (127 : ℤ)) :=
    Int.log_mono_right (abs_pos.mpr hq) hb'
  have h2 : Int.log 2 (((2 : ℕ) : ℚ) ^ (127 : ℤ)) = 127 :=
    Int.log_zpow (by norm_num) 127
  unfold expOf
  omega

theorem mOf_nonneg (q : ℚ) : 0 ≤ mOf q := by
  apply rne_nonneg
  positivity

theorem mOf_le (q : ℚ) : mOf q ≤ 16777216 := by
  unfold mOf
  apply rne_le_of_lt
  have hpow : (0 : ℚ) < (2 : ℚ) ^ shiftOf q := zpow_pos (by norm_num) _
  have h1 : |q| / (2 : ℚ) ^ shiftOf q
      < (2 : ℚ) ^ (expOf q + 1) / (2 : ℚ) ^ shiftOf q :=
    (div_lt_div_iff_of_pos_right hpow).mpr (expOf_high q)
  have h2 : (2 : ℚ) ^ (expOf q + 1) / (2 : ℚ) ^ shiftOf q
      = (2 : ℚ) ^ (expOf q + 1 - shiftOf q) :=
    (zpow_sub₀ (by norm_num) _ _).symm
  have h3 : (2 : ℚ) ^ (expOf q + 1 - shiftOf q) ≤ (2 : ℚ) ^ (24 : ℤ) := by
    apply zpow_le_zpow_right₀ (by norm_num)
    have h4 : expOf q - 23 ≤ shiftOf q := le_max_left _ _
    omega
  have h5 : ((16777216 : ℤ) : ℚ) = (2 : ℚ) ^ (24 : ℤ) := by
    rw [show ((24 : ℤ)) = ((24 : ℕ) : ℤ) from rfl, zpow_natCast]
    norm_num
  rw [h5]
  calc |q| / (2 : ℚ) ^ shiftOf q
      < (2 : ℚ) ^ (expOf q + 1) / (2 : ℚ) ^ shiftOf q := h1
    _ = (2 : ℚ) ^ (expOf q + 1 - shiftOf q) := h2
    _ ≤ (2 : ℚ) ^ (24 : ℤ) := h3

theorem mOf_big_ge (q : ℚ) (hq : q ≠ 0) (hge : -149 ≤ expOf q - 23) :
    8388608 ≤ mOf q := by
  have hsh : shiftOf q = expOf q - 23 := max_eq_left (by omega)
  unfold mOf
  apply rne_ge_of_le
  have hpow : (0 : ℚ) < (2 : ℚ) ^ shiftOf q := zpow_pos (by norm_num) _
  have h1 : (2 : ℚ) ^ expOf q / (2 : ℚ) ^ shiftOf q
      ≤ |q| / (2 : ℚ) ^ shiftOf q :=
    (div_le_div_iff_of_pos_right hpow).mpr (expOf_low q hq)
  have h2 : (2 : ℚ) ^ expOf q / (2 : ℚ) ^ shiftOf q
      = (2 : ℚ) ^ (expOf q - shiftOf q) :=
    (zpow_sub₀ (by norm_num) _ _).symm
  have h3 : expOf q - shiftOf q = 23 := by omega
  have h5 : ((8388608 : ℤ) : ℚ) = (2 : ℚ) ^ (23 : ℤ) := by
    rw [show ((23 : ℤ)) = ((23 : ℕ) : ℤ) from rfl, zpow_natCast]
    norm_num
  rw [h5]
  calc (2 : ℚ) ^ (23 : ℤ) = (2 : ℚ) ^ (expOf q - shiftOf q) := by rw [h3]
    _ = (2 : ℚ) ^ expOf q / (2 : ℚ) ^ shiftOf q := h2.symm
    _ ≤ |q| / (2 : ℚ) ^ shiftOf q := h1

theorem shiftOf_eq_of_m_small (q : ℚ) (hq : q ≠ 0) (hm : mOf q < 8388608) :
    shiftOf q = -149 := by
  rcases le_or_lt (-149) (expOf q - 23) with h | h
  · exact absurd (mOf_big_ge q hq h) (by omega)
  · exact max_eq_right (by omega)

theorem shiftOf_ge (q : ℚ) : (-149 : ℤ) ≤ shiftOf q := le_max_right _ _

theorem shiftOf_le_104 (q : ℚ) (hq : q ≠ 0) (hb : |q| ≤ 2 ^ 127) :
    shiftOf q ≤ 104 := by
  have he := expOf_le_127 q hq hb
  unfold shiftOf
  omega

theorem f32val_toF32 (q : ℚ) (hq : q ≠ 0) (hb : |q| ≤ 2 ^ 127) :
    f32val (toF32 q).sign (toF32 q).ex (toF32 q).man
      = (if q < 0 then -((mOf q : ℚ) * (2 : ℚ) ^ shiftOf q)
         else (mOf q : ℚ) * (2 : ℚ) ^ shiftOf q) := by
  have hsh_ge := shiftOf_ge q
  have hsh_le := shiftOf_le_104 q hq hb
  have hm0 := mOf_nonneg q
  have hm16 := mOf_le q
  unfold toF32
  rw [if_neg hq]
  by_cases h1 : mOf q < 8388608
  · have hsh : shiftOf q = -149 := shiftOf_eq_of_m_small q hq h1
    rw [if_pos h1]
    unfold f32val f32mag
    rw [hsh]
    simp only [if_pos rfl]
    have hcast : (((mOf q).toNat : ℕ) : ℚ) = ((mOf q : ℤ) : ℚ) := by
      exact_mod_cast congrArg (Int.cast : ℤ → ℚ) (Int.toNat_of_nonneg hm0)
    rw [hcast]
    by_cases hneg : q < 0 <;> simp [hneg]
  · rw [if_neg h1]
    by_cases h2 : mOf q < 16777216
    · rw [if_pos h2, if_neg (by omega)]
      unfold f32val f32mag
      have hexnz : (shiftOf q + 150).toNat ≠ 0 := by omega
      rw [if_neg hexnz]
      have hex : (((shiftOf q + 150).toNat : ℕ) : ℤ) = shiftOf q + 150 :=
        Int.toNat_of_nonneg (by omega)
      rw [hex]
      have hman : ((8388608 + (mOf q - 8388608).toNat : ℕ) : ℚ)
          = ((mOf q : ℤ) : ℚ) := by
        have h3 : ((8388608 + (mOf q - 8388608).toNat : ℕ) : ℤ) = mOf q := by
          omega
        exact_mod_cast congrArg (Int.cast : ℤ → ℚ) h3
      rw [hman]
      have hexp : shiftOf q + 150 - 150 = shiftOf q := by omega
      rw [hexp]
      by_cases hneg : q < 0 <;> simp [hneg]
    · -- mOf q = 16777216
      have hm : mOf q = 16777216 := by omega
      rw [if_neg h2]
      -- rule out the overflow branch: shiftOf q ≤ 103 here
      have hsh103 : shiftOf q ≤ 103 := by
        rcases lt_or_eq_of_le hsh_le with h | h
        · omega
        · -- shiftOf q = 104 forces expOf q = 127 and mOf q ≤ 2^23 + 1
          exfalso
          have hsh' : shiftOf q = expOf q - 23 := by
            unfold shiftOf at h ⊢
            omega
          have he127 : expOf q = 127 := by omega
          have hxle : |q| / (2 : ℚ) ^ shiftOf q ≤ ((8388608 : ℤ) : ℚ) := by
            have hpow : (0 : ℚ) < (2 : ℚ) ^ shiftOf q := zpow_pos (by norm_num) _
            rw [div_le_iff₀ hpow]
            have hb2 : |q| ≤ (2 : ℚ) ^ (127 : ℤ) := by
              rw [show ((127 : ℤ)) = ((127 : ℕ) : ℤ) from rfl, zpow_natCast]
              exact_mod_cast hb
            have hsplit : ((8388608 : ℤ) : ℚ) * (2 : ℚ) ^ shiftOf q
                = (2 : ℚ) ^ (127 : ℤ) := by
              rw [show ((8388608 : ℤ) : ℚ) = (2 : ℚ) ^ (23 : ℤ) from by
                norm_num]
              rw [← zpow_add₀ (by norm_num : (2 : ℚ) ≠ 0),
                show 23 + shiftOf q = 127 from by omega]
            rw [hsplit]
            exact hb2
          have : mOf q ≤ 8388608 + 1 := by
            unfold mOf
            have hfl : ⌊|q| / (2 : ℚ) ^ shiftOf q⌋ ≤ 8388608 := by
              have := Int.floor_le_floor hxle
              rwa [Int.floor_intCast] at this
            have := rne_le_floor_add_one (|q| / (2 : ℚ) ^ shiftOf q)
            omega
          omega
      rw [if_neg (by omega)]
      unfold f32val f32mag
      have hexnz : (shiftOf q + 151).toNat ≠ 0 := by omega
      rw [if_neg hexnz]
      have hex : (((shiftOf q + 151).toNat : ℕ) : ℤ) = shiftOf q + 151 :=
        Int.toNat_of_nonneg (by omega)
      rw [hex]
      have hval : ((8388608 + 0 : ℕ) : ℚ) * (2 : ℚ) ^ (shiftOf q + 151 - 150)
          = ((mOf q : ℤ) : ℚ) * (2 : ℚ) ^ shiftOf q := by
        rw [hm, show shiftOf q + 151 - 150 = shiftOf q + 1 from by omega,
          zpow_add₀ (by norm_num : (2 : ℚ) ≠ 0)]
        push_cast
        ring
      rw [hval]
      by_cases hneg : q < 0 <;> simp [hneg]

theorem f32val_toF32_err (q : ℚ) (hb : |q| ≤ 2 ^ 127) :
    |f32val (toF32 q).sign (toF32 q).ex (toF32 q).man - q|
      ≤ |q| / 2 ^ 24 + 1 / 2 ^ 150 := by
  rcases eq_or_ne q 0 with rfl | hq
  · simp [toF32, f32val, f32mag]
  · rw [f32val_toF32 q hq hb]
    have hpow : (0 : ℚ) < (2 : ℚ) ^ shiftOf q := zpow_pos (by norm_num) _
    have key : abs ((mOf q : ℚ) * (2 : ℚ) ^ shiftOf q - |q|)
        ≤ |q| / 2 ^ 24 + 1 / 2 ^ 150 := by
      have hxdef : (mOf q : ℚ) * (2 : ℚ) ^ shiftOf q - |q|
          = ((mOf q : ℚ) - |q| / (2 : ℚ) ^ shiftOf q)
            * (2 : ℚ) ^ shiftOf q := by
        field_simp
      rw [hxdef, abs_mul, abs_of_pos hpow]
      have h1 : |(mOf q : ℚ) - |q| / (2 : ℚ) ^ shiftOf q| ≤ 1 / 2 :=
        rne_sub_abs_le (|q| / (2 : ℚ) ^ shiftOf q)
      have step : |(mOf q : ℚ) - |q| / (2 : ℚ) ^ shiftOf q|
            * (2 : ℚ) ^ shiftOf q
          ≤ (1 / 2) * (2 : ℚ) ^ shiftOf q :=
        mul_le_mul_of_nonneg_right h1 (le_of_lt hpow)
      have hq150 : (0 : ℚ) ≤ 1 / 2 ^ 150 := by positivity
      have hq24 : (0 : ℚ) ≤ |q| / 2 ^ 24 := by positivity
      rcases le_or_lt (-149) (expOf q - 23) with hcase | hcase
      · have hs : shiftOf q = expOf q - 23 := max_eq_left (by omega)
        have hlow := expOf_low q hq
        have he1 : (1 / 2) * (2 : ℚ) ^ shiftOf q
            = (2 : ℚ) ^ (expOf q - 24) := by
          rw [hs, show expOf q - 24 = -1 + (expOf q - 23) from by ring,
            zpow_add₀ (by norm_num : (2 : ℚ) ≠ 0)]
          norm_num
        have he2 : (2 : ℚ) ^ (expOf q - 24) ≤ |q| * (2 : ℚ) ^ (-24 : ℤ) := by
          rw [show expOf q - 24 = expOf q + -24 from by ring,
            zpow_add₀ (by norm_num : (2 : ℚ) ≠ 0)]
          exact mul_le_mul_of_nonneg_right hlow
            (le_of_lt (zpow_pos (by norm_num) _))
        have he3 : |q| * (2 : ℚ) ^ (-24 : ℤ) = |q| / 2 ^ 24 := by
          rw [div_eq_mul_inv]
          congr 1
          norm_num
        calc abs ((mOf q : ℚ) - |q| / (2 : ℚ) ^ shiftOf q)
              * (2 : ℚ) ^ shiftOf q
            ≤ (1 / 2) * (2 : ℚ) ^ shiftOf q := step
          _ = (2 : ℚ) ^ (expOf q - 24) := he1
          _ ≤ |q| * (2 : ℚ) ^ (-24 : ℤ) := he2
          _ = |q| / 2 ^ 24 := he3
          _ ≤ |q| / 2 ^ 24 + 1 / 2 ^ 150 := le_add_of_nonneg_right hq150
      · have hs : shiftOf q = -149 := max_eq_right (by omega)
        have hsub : (1 / 2) * (2 : ℚ) ^ shiftOf q = 1 / 2 ^ 150 := by
          rw [hs]
          norm_num
        calc abs ((mOf q : ℚ) - |q| / (2 : ℚ) ^ shiftOf q)
              * (2 : ℚ) ^ shiftOf q
            ≤ (1 / 2) * (2 : ℚ) ^ shiftOf q := step
          _ = 1 / 2 ^ 150 := hsub
          _ ≤ |q| / 2 ^ 24 + 1 / 2 ^ 150 := le_add_of_nonneg_left hq24
    by_cases hneg : q < 0
    · rw [if_pos hneg]
      have habs : |q| = -q := abs_of_neg hneg
      have hrw : -((mOf q : ℚ) * (2 : ℚ) ^ shiftOf q) - q
          = -((mOf q : ℚ) * (2 : ℚ) ^ shiftOf q - |q|) := by
        rw [habs]
        ring
      rw [hrw, abs_neg]
      exact key
    · rw [if_neg hneg]
      have habs : |q| = q := abs_of_nonneg (not_lt.mp hneg)
      rw [show (mOf q : ℚ) * (2 : ℚ) ^ shiftOf q - q
          = (mOf q : ℚ) * (2 : ℚ) ^ shiftOf q - |q| from by rw [habs]]
      exact key

theorem toF32_wf (q : ℚ) : (toF32 q).ex ≤ 255 ∧ (toF32 q).man < 8388608 := by
  unfold toF32
  rcases eq_or_ne q 0 with rfl | hq
  · rw [if_pos rfl]
    exact ⟨by norm_num, by norm_num⟩
  · rw [if_neg hq]
    have h0 := mOf_nonneg q
    have h16 := mOf_le q
    split_ifs with h1 h2 h3 h4
    · refine ⟨by norm_num, ?_⟩
      show (mOf q).toNat < 8388608
      omega
    · exact ⟨by norm_num, by norm_num⟩
    · refine ⟨?_, ?_⟩
      · show (shiftOf q + 150).toNat ≤ 255
        omega
      · show (mOf q - 8388608).toNat < 8388608
        omega
    · exact ⟨by norm_num, by norm_num⟩
    · refine ⟨?_, ?_⟩
      · show (shiftOf q + 151).toNat ≤ 255
        omega
      · norm_num

theorem f32val_congr {s1 s2 : Bool} {e1 e2 m1 m2 : Nat} (hs : s1 = s2)
    (he : e1 = e2) (hm : m1 = m2) : f32val s1 e1 m1 = f32val s2 e2 m2 := by
  rw [hs, he, hm]

theorem f32decBytes_f32le (q : ℚ) :
    f32decBytes (f32le q)
      = f32val (toF32 q).sign (toF32 q).ex (toF32 q).man := by
  obtain ⟨hex, hman⟩ := toF32_wf q
  unfold f32le f32decBytes u32le u32dec f32bitsOf
  simp only [List.getD_cons_zero, List.getD_cons_succ]
  cases hs : (toF32 q).sign
  · rw [Bool.cond_false]
    refine f32val_congr ?_ (by omega) (by omega)
    rw [decide_eq_false_iff_not]
    omega
  · rw [Bool.cond_true]
    refine f32val_congr ?_ (by omega) (by omega)
    rw [decide_eq_true_eq]
    omega

/-! ## STL layout lemmas -/

theorem f32le_length (q : ℚ) : (f32le q).length = 4 := rfl

theorem flatMap_f32le_length (l : List ℚ) :
    (l.flatMap f32le).length = 4 * l.length := by
  induction l with
  | nil => rfl
  | cons a t ih =>
    simp only [List.flatMap_cons, List.length_append, ih, f32le_length,
      List.length_cons]
    ring

theorem flatMap_f32le_chunk (l : List ℚ) (j : Nat) (hj : j < l.length) :
    ((l.flatMap f32le).drop (4 * j)).take 4 = f32le (l.getD j 0) := by
  induction l generalizing j with
  | nil => simp at hj
  | cons a t ih =>
    cases j with
    | zero =>
      simp only [Nat.mul_zero, List.drop_zero, List.flatMap_cons,
        List.getD_cons_zero]
      have h4 : List.take 4 (f32le a ++ t.flatMap f32le) = f32le a :=
        List.take_left (f32le a) _
      exact h4
    | succ k =>
      simp only [List.flatMap_cons, List.getD_cons_succ]
      have h1 : List.drop 4 (f32le a ++ t.flatMap f32le) = t.flatMap f32le :=
        List.drop_left (f32le a) _
      rw [show 4 * (k + 1) = 4 + 4 * k from by ring, ← List.drop_drop, h1]
      exact ih k (by simpa using hj)

theorem triFields_length (t : Tri) : (triFields t).length = 12 := rfl

theorem triRecord_length (t : Tri) : (triRecord t).length = 50 := by
  unfold triRecord
  rw [List.length_append, flatMap_f32le_length, triFields_length]
  rfl

theorem triRecord_chunk (t : Tri) (j : Nat) (hj : j < 12) :
    ((triRecord t).drop (4 * j)).take 4 = f32le ((triFields t).getD j 0) := by
  unfold triRecord
  have hlen : ((triFields t).flatMap f32le).length = 48 := by
    rw [flatMap_f32le_length, triFields_length]
  rw [List.drop_append_eq_append_drop, hlen,
    show 4 * j - 48 = 0 from by omega, List.drop_zero,
    List.take_append_eq_append_take]
  have hdroplen : (((triFields t).flatMap f32le).drop (4 * j)).length
      = 48 - 4 * j := by
    rw [List.length_drop, hlen]
  rw [hdroplen, show 4 - (48 - 4 * j) = 0 from by omega, List.take_zero,
    List.append_nil]
  exact flatMap_f32le_chunk (triFields t) j
    (by rw [triFields_length]; exact hj)

theorem triRecord_attr (t : Tri) : (triRecord t).drop 48 = [0, 0] := by
  unfold triRecord
  have hlen : ((triFields t).flatMap f32le).length = 48 := by
    rw [flatMap_f32le_length, triFields_length]
  rw [← hlen, List.drop_left]
  rfl

theorem flatMap_triRecord_length (l : List Tri) :
    (l.flatMap triRecord).length = 50 * l.length := by
  induction l with
  | nil => rfl
  | cons t ts ih =>
    simp only [List.flatMap_cons, List.length_append, ih, triRecord_length,
      List.length_cons]
    ring

theorem flatMap_triRecord_drop (l : List Tri) (i : Nat) :
    (l.flatMap triRecord).drop (50 * i) = (l.drop i).flatMap triRecord := by
  induction i generalizing l with
  | zero => simp
  | succ k ih =>
    cases l with
    | nil => simp
    | cons t ts =>
      rw [List.flatMap_cons, show 50 * (k + 1) = 50 + 50 * k from by ring,
        ← List.drop_drop]
      have h1 : List.drop 50 (triRecord t ++ ts.flatMap triRecord)
          = ts.flatMap triRecord := by
        have h2 := List.drop_left (triRecord t) (ts.flatMap triRecord)
        rwa [triRecord_length] at h2
      rw [h1, ih ts, List.drop_succ_cons]

theorem flatMap_triRecord_take (l : List Tri) (i : Nat) (hi : i < l.length) :
    ((l.drop i).flatMap triRecord).take 50 = triRecord (l.get ⟨i, hi⟩) := by
  rw [List.drop_eq_getElem_cons hi, List.flatMap_cons]
  have h1 := List.take_left (triRecord l[i]) ((l.drop (i + 1)).flatMap triRecord)
  rw [triRecord_length] at h1
  rw [h1]
  simp

theorem header80_length (name : List Nat) : (header80 name).length = 80 := by
  unfold header80
  rw [List.length_append, List.length_replicate]
  have h1 : (name.take 80).length ≤ 80 := by
    rw [List.length_take]
    exact Nat.min_le_left _ _
  omega

theorem u32dec_u32le (n : Nat) (h : n < 4294967296) :
    u32dec (u32le n) = n := by
  unfold u32dec u32le
  simp only [List.getD_cons_zero, List.getD_cons_succ]
  omega

theorem stl_length (tris : List Tri) (name : List Nat) :
    (meshTrianglesToBinarySTL tris name).length = 84 + 50 * tris.length := by
  unfold meshTrianglesToBinarySTL
  rw [List.length_append, List.length_append, header80_length,
    flatMap_triRecord_length]
  rfl

theorem stl_count_bytes (tris : List Tri) (name : List Nat) :
    ((meshTrianglesToBinarySTL tris name).drop 80).take 4
      = u32le tris.length := by
  unfold meshTrianglesToBinarySTL
  rw [List.append_assoc,
    show (80 : ℕ) = (header80 name).length from (header80_length name).symm,
    List.drop_left,
    show (4 : ℕ) = (u32le tris.length).length from rfl, List.take_left]

theorem stl_drop84 (tris : List Tri) (name : List Nat) :
    (meshTrianglesToBinarySTL tris name).drop 84 = tris.flatMap triRecord := by
  unfold meshTrianglesToBinarySTL
  rw [show (84 : ℕ) = (header80 name ++ u32le tris.length).length from by
    rw [List.length_append, header80_length]
    rfl]
  rw [List.drop_left]

/-! ## Mask builder and estimator bridge lemmas -/

theorem grayAt_lt_iff (pdata : Nat → Nat) (w x y threshold : Nat) :
    (grayAt pdata w x y < threshold) ↔
      specGray (pdata ((y * w + x) * 4)) (pdata ((y * w + x) * 4 + 1))
        (pdata ((y * w + x) * 4 + 2)) (pdata ((y * w + x) * 4 + 3))
        < (threshold : ℤ) := by
  simp only [grayAt, specGray]
  by_cases ha : pdata ((y * w + x) * 4 + 3) = 0
  · rw [if_pos ha, if_pos ha]
    omega
  · rw [if_neg ha, if_neg ha]
    have hr := jsRound3_eq_round (pdata ((y * w + x) * 4)
      + pdata ((y * w + x) * 4 + 1) + pdata ((y * w + x) * 4 + 2))
    have hcast : (((pdata ((y * w + x) * 4) + pdata ((y * w + x) * 4 + 1)
          + pdata ((y * w + x) * 4 + 2) : ℕ)) : ℚ)
        = (pdata ((y * w + x) * 4) : ℚ) + (pdata ((y * w + x) * 4 + 1) : ℚ)
          + (pdata ((y * w + x) * 4 + 2) : ℚ) := by
      push_cast
      ring
    rw [← hcast, ← hr]
    omega

theorem count_true_mkGrid (w h : Nat) (f : Nat → Nat → Bool) :
    (mkGrid w h f).count true
      = ((List.range h).map fun y =>
          ((List.range w).filter fun x => f x y).length).sum := by
  induction h with
  | zero => rfl
  | succ n ih =>
    simp only [mkGrid, List.range_succ, List.flatMap_append, List.map_append,
      List.count_append, List.sum_append] at *
    rw [ih, List.flatMap_singleton, count_true_map]
    simp

theorem blackCount_eq (pdata : Nat → Nat) (w h threshold : Nat) :
    blackCount pdata w h threshold
      = (createMask pdata w h threshold).count true := by
  unfold blackCount createMask
  rw [count_true_mkGrid]

/-! ## Claim theorems -/

/-- C2: the mask builder produces a `W×H` mask (a flat row-major list of
`H*W` cells), and a cell is foreground iff `gray < threshold` where
`gray` is `255` for alpha `0` and otherwise `round((R+G+B)/3)` rounded to
nearest (the spec-side formula `specGray`).  Being a Lean function of
`pdata` and `threshold`, the builder is pure and deterministic by
construction. -/
theorem c2_mask_builder_cells (pdata : Nat → Nat) (w h threshold : Nat)
    (hw : 1 ≤ w) (hh : 1 ≤ h) (ht : threshold ≤ 255) :
    (createMask pdata w h threshold).length = h * w
    ∧ ∀ x, x < w → ∀ y, y < h →
      ((createMask pdata w h threshold).getD (y * w + x) false = true
        ↔ specGray (pdata ((y * w + x) * 4)) (pdata ((y * w + x) * 4 + 1))
            (pdata ((y * w + x) * 4 + 2)) (pdata ((y * w + x) * 4 + 3))
            < (threshold : ℤ)) := by
  refine ⟨mkGrid_length w h _, fun x hx y hy => ?_⟩
  unfold createMask
  rw [mkGrid_getD w h _ hx hy, decide_eq_true_eq]
  exact grayAt_lt_iff pdata w x y threshold

theorem c2_mask_builder_cells_witness :
    (1 ≤ 1 ∧ 1 ≤ 1 ∧ 128 ≤ 255)
    ∧ ((createMask (fun _ => 7) 1 1 128).length = 1 * 1
      ∧ ∀ x, x < 1 → ∀ y, y < 1 →
        ((createMask (fun _ => 7) 1 1 128).getD (y * 1 + x) false = true
          ↔ specGray ((fun _ : Nat => 7) ((y * 1 + x) * 4))
              ((fun _ : Nat => 7) ((y * 1 + x) * 4 + 1))
              ((fun _ : Nat => 7) ((y * 1 + x) * 4 + 2))
              ((fun _ : Nat => 7) ((y * 1 + x) * 4 + 3))
              < ((128 : ℕ) : ℤ))) :=
  ⟨⟨by decide, by decide, by decide⟩,
    c2_mask_builder_cells (fun _ => 7) 1 1 128 (by decide) (by decide)
      (by decide)⟩

/-- C9: for a fixed pixel and thresholds `t1 ≤ t2`, a cell foreground at
threshold `t1` is also foreground at threshold `t2` (the mask builder's
cut `gray < threshold` is monotone in the threshold). -/
theorem c9_threshold_monotone (pdata : Nat → Nat) (w h t1 t2 x y : Nat)
    (hx : x < w) (hy : y < h) (ht : t1 ≤ t2)
    (hfg : (createMask pdata w h t1).getD (y * w + x) false = true) :
    (createMask pdata w h t2).getD (y * w + x) false = true := by
  unfold createMask at hfg ⊢
  rw [mkGrid_getD w h _ hx hy, decide_eq_true_eq] at hfg ⊢
  omega

theorem c9_threshold_monotone_witness :
    (0 < 1 ∧ 0 < 1 ∧ 2 ≤ 3
      ∧ (createMask (fun _ => 1) 1 1 2).getD (0 * 1 + 0) false = true)
    ∧ (createMask (fun _ => 1) 1 1 3).getD (0 * 1 + 0) false = true :=
  ⟨⟨by decide, by decide, by decide, by decide⟩,
    c9_threshold_monotone (fun _ => 1) 1 1 2 3 0 0 (by decide) (by decide)
      (by decide) (by decide)⟩

/-- C10: the Node-side extruder of `generate` (src/index.js) and the
browser-side extruder `generateTriangles` (png-to-stl.js) emit the same
triangle sequence — same triangles, same coordinates, same order — for
every mask, dimensions, scale and thickness. -/
theorem c10_extruders_equal (mask : List Bool) (w h : Nat)
    (scale thickness : ℚ) :
    extrude mask w h scale thickness = extrudeB mask w h scale thickness := by
  unfold extrude extrudeB
  apply flatMapCongr
  intro y hy
  apply flatMapCongr
  intro x hx
  exact cellTriangles_eq mask w h scale thickness
    (List.mem_range.mp hx) (List.mem_range.mp hy)

/-- C4: when the mask has no foreground cell the extruded triangle list is
empty and the pipeline stops with the `'No black regions detected'` error
before any write; in particular it never returns an output buffer (so no
84-byte zero-triangle file can be produced). -/
theorem c4_empty_mask_errors (mask : List Bool) (w h : Nat)
    (scale thickness : ℚ) (name : List Nat)
    (hempty : ∀ x, x < w → ∀ y, y < h → maskAt mask w x y = false) :
    generatePipeline mask w h scale thickness name
        = Except.error "No black regions detected"
    ∧ ∀ buf : List Nat,
        generatePipeline mask w h scale thickness name ≠ Except.ok buf := by
  have he := extrude_empty mask w h scale thickness hempty
  unfold generatePipeline
  rw [he]
  exact ⟨rfl, fun buf hc => by simp at hc⟩

theorem c4_empty_mask_errors_witness :
    (∀ x, x < 1 → ∀ y, y < 1 → maskAt [false] 1 x y = false)
    ∧ (generatePipeline [false] 1 1 1 2 []
          = Except.error "No black regions detected"
      ∧ ∀ buf : List Nat,
          generatePipeline [false] 1 1 1 2 [] ≠ Except.ok buf) :=
  ⟨by decide, c4_empty_mask_errors [false] 1 1 1 2 [] (by decide)⟩

/-- C5 (code bug): the effective scale is always inflated by the width
ratio `origW / maskW` (src/index.js line 155), so for a height-driven
scale the physical height is not preserved by resampling.  At
`origW = 1`, `origH = 1000`, `height_mm = 1000` (original scale 1 mm/px)
and `max_px = 100` the resampled mask is `1×100`, and the model's height
`effectiveScale · maskH` is `100` mm instead of the requested `1000` mm —
far outside any rounding tolerance. -/
theorem c5_height_scale_not_preserved :
    resampleDims 1 1000 100 = (1, 100)
    ∧ effectiveScale none (some 1000) 1 1000 1 * ((100 : ℕ) : ℚ) = 100
    ∧ originalScale none (some 1000) 1 1000 * ((1000 : ℕ) : ℚ) = 1000 := by
  refine ⟨?_, ?_, ?_⟩
  · norm_num [resampleDims, jsRound]
    decide
  · norm_num [effectiveScale, originalScale]
  · norm_num [originalScale]

/-- C8: the size estimator counts foreground pixels with the threshold
rule (`blackCount` equals the number of `true` cells of the mask builder's
output), and computes exactly the claimed formula: `targetBytes =
max(1,⌊S⌋)`, `desiredTriangles = max(1,⌊(targetBytes-84)/50⌋)`,
`estimated = max(1,⌊blackCount·6⌋)`, returning `max(W,H)` when
`estimated ≤ desiredTriangles` and
`max(1,⌊max(W,H)·sqrt(max(10⁻⁶, desired/estimated))⌋)` otherwise. -/
theorem c8_size_estimator (S : ℚ) (pdata : Nat → Nat) (w h threshold : Nat) :
    blackCount pdata w h threshold
      = (createMask pdata w h threshold).count true
    ∧ ∀ targetBytes desiredTriangles estimated : ℤ,
        targetBytes = max 1 ⌊S⌋ →
        desiredTriangles = max 1 ⌊((targetBytes : ℚ) - 84) / 50⌋ →
        estimated = max 1 ⌊((blackCount pdata w h threshold : ℕ) : ℚ) * 6⌋ →
        estimateMaxPx S pdata w h threshold
          = if estimated ≤ desiredTriangles then max w h
            else max 1 (⌊(max w h : ℚ)
                * jsSqrt (max (1 / 1000000)
                    ((desiredTriangles : ℚ) / (estimated : ℚ)))⌋).toNat := by
  refine ⟨blackCount_eq pdata w h threshold, ?_⟩
  intro targetBytes desiredTriangles estimated h1 h2 h3
  subst h1
  subst h2
  subst h3
  rfl

theorem c8_size_estimator_witness :
    ((max 1 ⌊(1000000 : ℚ)⌋ : ℤ) = max 1 ⌊(1000000 : ℚ)⌋
      ∧ (max 1 ⌊(((max 1 ⌊(1000000 : ℚ)⌋ : ℤ) : ℚ) - 84) / 50⌋ : ℤ)
          = max 1 ⌊(((max 1 ⌊(1000000 : ℚ)⌋ : ℤ) : ℚ) - 84) / 50⌋
      ∧ (max 1 ⌊((blackCount (fun _ => 0) 1 1 128 : ℕ) : ℚ) * 6⌋ : ℤ)
          = max 1 ⌊((blackCount (fun _ => 0) 1 1 128 : ℕ) : ℚ) * 6⌋)
    ∧ (blackCount (fun _ => 0) 1 1 128
        = (createMask (fun _ => 0) 1 1 128).count true
      ∧ ∀ targetBytes desiredTriangles estimated : ℤ,
        targetBytes = max 1 ⌊(1000000 : ℚ)⌋ →
        desiredTriangles = max 1 ⌊((targetBytes : ℚ) - 84) / 50⌋ →
        estimated = max 1 ⌊((blackCount (fun _ => 0) 1 1 128 : ℕ) : ℚ) * 6⌋ →
        estimateMaxPx 1000000 (fun _ => 0) 1 1 128
          = if estimated ≤ desiredTriangles then max 1 1
            else max 1 (⌊(max 1 1 : ℚ)
                * jsSqrt (max (1 / 1000000)
                    ((desiredTriangles : ℚ) / (estimated : ℚ)))⌋).toNat) :=
  ⟨⟨rfl, rfl, rfl⟩, c8_size_estimator 1000000 (fun _ => 0) 1 1 128⟩

/-- C1: a mask whose only foreground cell is `(px, py)` (so its four
cardinal neighbours are background or out of bounds) makes the extruder
emit exactly 12 triangles — the 2 top and 2 bottom triangles plus 2 for
each of the four sides, whose guards all fire. -/
theorem c1_isolated_cell_emits_twelve (mask : List Bool) (w h px py : Nat)
    (scale thickness : ℚ) (hpx : px < w) (hpy : py < h)
    (huniq : ∀ x, x < w → ∀ y, y < h →
      (maskAt mask w x y = true ↔ (x = px ∧ y = py)))
    (hscale : 0 < scale) (hthick : 0 < thickness) :
    (extrude mask w h scale thickness).length = 12 := by
  have hbg : ∀ x y, x < w → y < h → ¬(x = px ∧ y = py) →
      maskAt mask w x y = false := by
    intro x y hx hy hne
    rcases Bool.eq_false_or_eq_true (maskAt mask w x y) with htr | hf
    · exact absurd ((huniq x hx y hy).mp htr) hne
    · exact hf
  have hcell : ∀ x, x < w → ∀ y, y < h →
      (cellTriangles mask w h scale thickness x y).length
        = if x = px ∧ y = py then 12 else 0 := by
    intro x hx y hy
    by_cases hxy : x = px ∧ y = py
    · obtain ⟨rfl, rfl⟩ := hxy
      rw [if_pos ⟨rfl, rfl⟩]
      have hfg : maskAt mask w x y = true := (huniq x hx y hy).mpr ⟨rfl, rfl⟩
      have hL : x = 0 ∨ maskAt mask w (x - 1) y = false := by
        rcases Nat.eq_zero_or_pos x with h0 | h0
        · exact Or.inl h0
        · exact Or.inr (hbg (x - 1) y (by omega) hy (by omega))
      have hR : x = w - 1 ∨ maskAt mask w (x + 1) y = false := by
        rcases Nat.lt_or_ge (x + 1) w with hlt | hge
        · exact Or.inr (hbg (x + 1) y hlt hy (by omega))
        · exact Or.inl (by omega)
      have hBo : y = h - 1 ∨ maskAt mask w x (y + 1) = false := by
        rcases Nat.lt_or_ge (y + 1) h with hlt | hge
        · exact Or.inr (hbg x (y + 1) hx hlt (by omega))
        · exact Or.inl (by omega)
      have hTo : y = 0 ∨ maskAt mask w x (y - 1) = false := by
        rcases Nat.eq_zero_or_pos y with h0 | h0
        · exact Or.inl h0
        · exact Or.inr (hbg x (y - 1) hx (by omega) (by omega))
      simp only [cellTriangles]
      rw [if_neg (by simp [hfg]), if_pos hL, if_pos hR, if_pos hBo,
        if_pos hTo]
      rfl
    · rw [if_neg hxy]
      have hf : maskAt mask w x y = false := hbg x y hx hy hxy
      simp only [cellTriangles]
      rw [if_pos hf]
      rfl
  unfold extrude
  rw [List.length_flatMap]
  apply sum_map_range_single _ 12 py h hpy
  intro y hy
  simp only [Function.comp_apply]
  rw [List.length_flatMap]
  by_cases hyy : y = py
  · subst hyy
    rw [if_pos rfl]
    apply sum_map_range_single _ 12 px w hpx
    intro i hi
    simp only [Function.comp_apply]
    rw [hcell i hi y hy]
    by_cases hip : i = px
    · rw [if_pos ⟨hip, rfl⟩, if_pos hip]
    · rw [if_neg (fun hc => hip hc.1), if_neg hip]
  · rw [if_neg hyy]
    apply List.sum_eq_zero
    intro v hv
    obtain ⟨i, hi, rfl⟩ := List.mem_map.mp hv
    simp only [Function.comp_apply]
    rw [hcell i (List.mem_range.mp hi) y hy,
      if_neg (fun hc => hyy hc.2)]

theorem c1_isolated_cell_emits_twelve_witness :
    (0 < 1 ∧ 0 < 1
      ∧ (∀ x, x < 1 → ∀ y, y < 1 →
          (maskAt [true] 1 x y = true ↔ (x = 0 ∧ y = 0)))
      ∧ (0 : ℚ) < 1 ∧ (0 : ℚ) < 2)
    ∧ (extrude [true] 1 1 1 2).length = 12 :=
  ⟨⟨by decide, by decide, by decide, by norm_num, by norm_num⟩,
    c1_isolated_cell_emits_twelve [true] 1 1 0 0 1 2 (by decide) (by decide)
      (by decide) (by norm_num) (by norm_num)⟩

theorem resampleDims_fst (w h m : Nat) :
    (resampleDims w h m).1
      = max 1 (jsRound (((w * m : ℕ) : ℚ) / ((max w h : ℕ) : ℚ))).toNat := by
  have h1 : (resampleDims w h m).1
      = max 1 (jsRound ((w : ℚ) * ((m : ℚ) / max (w : ℚ) (h : ℚ)))).toNat := by
    unfold resampleDims
    rfl
  rw [h1, show (w : ℚ) * ((m : ℚ) / max (w : ℚ) (h : ℚ))
      = ((w * m : ℕ) : ℚ) / ((max w h : ℕ) : ℚ) from by push_cast; ring]

theorem resampleDims_snd (w h m : Nat) :
    (resampleDims w h m).2
      = max 1 (jsRound (((h * m : ℕ) : ℚ) / ((max w h : ℕ) : ℚ))).toNat := by
  have h1 : (resampleDims w h m).2
      = max 1 (jsRound ((h : ℚ) * ((m : ℚ) / max (w : ℚ) (h : ℚ)))).toNat := by
    unfold resampleDims
    rfl
  rw [h1, show (h : ℚ) * ((m : ℚ) / max (w : ℚ) (h : ℚ))
      = ((h * m : ℕ) : ℚ) / ((max w h : ℕ) : ℚ) from by push_cast; ring]

/-- C7: the mask stage skips resampling when `max(W,H) ≤ M` and keeps the
full-resolution mask builder output unchanged; otherwise the resampled
dimensions are `max(1, round(W·M/max(W,H)))` by `max(1, round(H·M/max(W,H)))`
and every output cell thresholds the original colour buffer at
`srcX = min(W-1, ⌊x2·W/newW⌋)`, `srcY = min(H-1, ⌊y2·H/newH⌋)` (the
original pixels, not the full-resolution mask). -/
theorem c7_resampler (pdata : Nat → Nat) (origW origH threshold maxPx : Nat)
    (hW : 1 ≤ origW) (hH : 1 ≤ origH) (hM : 1 ≤ maxPx) :
    (max origW origH ≤ maxPx →
      pipelineMask pdata origW origH threshold maxPx
        = (origW, origH, createMask pdata origW origH threshold))
    ∧ (maxPx < max origW origH →
        (pipelineMask pdata origW origH threshold maxPx).1
            = max 1 (jsRound (((origW * maxPx : ℕ) : ℚ)
                / ((max origW origH : ℕ) : ℚ))).toNat
        ∧ (pipelineMask pdata origW origH threshold maxPx).2.1
            = max 1 (jsRound (((origH * maxPx : ℕ) : ℚ)
                / ((max origW origH : ℕ) : ℚ))).toNat
        ∧ ∀ x2 y2 : Nat,
            x2 < (pipelineMask pdata origW origH threshold maxPx).1 →
            y2 < (pipelineMask pdata origW origH threshold maxPx).2.1 →
            maskAt (pipelineMask pdata origW origH threshold maxPx).2.2
                (pipelineMask pdata origW origH threshold maxPx).1 x2 y2
              = decide (grayAt pdata origW
                  (min (origW - 1) (x2 * origW
                    / (pipelineMask pdata origW origH threshold maxPx).1))
                  (min (origH - 1) (y2 * origH
                    / (pipelineMask pdata origW origH threshold maxPx).2.1))
                  < threshold)) := by
  constructor
  · intro hle
    unfold pipelineMask
    rw [if_neg (by omega)]
  · intro hgt
    have hpm : pipelineMask pdata origW origH threshold maxPx
        = ((resampleDims origW origH maxPx).1,
           (resampleDims origW origH maxPx).2,
           downsampleMask pdata origW origH threshold maxPx) := by
      unfold pipelineMask
      rw [if_pos ⟨by omega, hgt⟩, show max 1 maxPx = maxPx from by omega]
    rw [hpm]
    dsimp only
    refine ⟨resampleDims_fst origW origH maxPx,
      resampleDims_snd origW origH maxPx, ?_⟩
    · intro x2 y2 hx2 hy2
      unfold downsampleMask maskAt
      exact mkGrid_getD _ _ _ hx2 hy2

theorem c7_resampler_witness :
    (1 ≤ 2 ∧ 1 ≤ 1 ∧ 1 ≤ 1)
    ∧ ((max 2 1 ≤ 1 →
        pipelineMask (fun _ => 0) 2 1 128 1
          = (2, 1, createMask (fun _ => 0) 2 1 128))
      ∧ (1 < max 2 1 →
          (pipelineMask (fun _ => 0) 2 1 128 1).1
              = max 1 (jsRound (((2 * 1 : ℕ) : ℚ)
                  / ((max 2 1 : ℕ) : ℚ))).toNat
          ∧ (pipelineMask (fun _ => 0) 2 1 128 1).2.1
              = max 1 (jsRound (((1 * 1 : ℕ) : ℚ)
                  / ((max 2 1 : ℕ) : ℚ))).toNat
          ∧ ∀ x2 y2 : Nat,
              x2 < (pipelineMask (fun _ => 0) 2 1 128 1).1 →
              y2 < (pipelineMask (fun _ => 0) 2 1 128 1).2.1 →
              maskAt (pipelineMask (fun _ => 0) 2 1 128 1).2.2
                  (pipelineMask (fun _ => 0) 2 1 128 1).1 x2 y2
                = decide (grayAt (fun _ => 0) 2
                    (min (2 - 1) (x2 * 2
                      / (pipelineMask (fun _ => 0) 2 1 128 1).1))
                    (min (1 - 1) (y2 * 1
                      / (pipelineMask (fun _ => 0) 2 1 128 1).2.1))
                    < 128))) :=
  ⟨⟨by decide, by decide, by decide⟩,
    c7_resampler (fun _ => 0) 2 1 128 1 (by decide) (by decide) (by decide)⟩

/-- C6 counterexample: for the fully degenerate triangle with all three
vertices at the origin, the cross product is `(0,0,0)`, the guard
substitutes length `1`, and the serializer emits exactly the direction
`(0,0,0)` — both at the value level (`stlNormal`) and in the output bytes
(the first 12 bytes of its record are zero) — refuting "a normal with
direction (0,0,0) is never emitted". -/
theorem c6_zero_normal_is_emitted :
    crossN ⟨⟨0, 0, 0⟩, ⟨0, 0, 0⟩, ⟨0, 0, 0⟩⟩ = (0, 0, 0)
    ∧ stlNormal ⟨⟨0, 0, 0⟩, ⟨0, 0, 0⟩, ⟨0, 0, 0⟩⟩ = (0, 0, 0)
    ∧ ((meshTrianglesToBinarySTL [⟨⟨0, 0, 0⟩, ⟨0, 0, 0⟩, ⟨0, 0, 0⟩⟩]
          []).drop 84).take 12 = List.replicate 12 0 := by
  have hn : stlNormal ⟨⟨0, 0, 0⟩, ⟨0, 0, 0⟩, ⟨0, 0, 0⟩⟩ = (0, 0, 0) := by
    norm_num [stlNormal, stlNl, crossLen, crossN, jsSqrt]
  refine ⟨by norm_num [crossN], hn, ?_⟩
  rw [stl_drop84]
  have hf0 : f32le 0 = [0, 0, 0, 0] := by
    unfold f32le
    rw [show toF32 0 = ⟨false, 0, 0⟩ from by unfold toF32; rw [if_pos rfl]]
    rfl
  have hfields : triFields ⟨⟨0, 0, 0⟩, ⟨0, 0, 0⟩, ⟨0, 0, 0⟩⟩
      = [0, 0, 0, 0, 0, 0, 0, 0, 0, 0, 0, 0] := by
    unfold triFields triCoords
    rw [hn]
    rfl
  simp only [List.flatMap_cons, List.flatMap_nil, triRecord, hfields, hf0]
  decide

/-- C6 amended: the division by the normal length is guarded — the length
used is never `0`, and it is `1` exactly when the cross-product length is
`0` — but the emitted normal direction is `(0,0,0)` precisely for the
triangles whose cross product is `(0,0,0)` (degenerate triangles), not
"never". -/
theorem c6_degenerate_guard (t : Tri) :
    stlNl t ≠ 0
    ∧ (crossLen t = 0 → stlNl t = 1)
    ∧ (stlNormal t = (0, 0, 0) ↔ crossN t = (0, 0, 0)) := by
  have hnl : stlNl t ≠ 0 := by
    unfold stlNl
    split_ifs with hc
    · norm_num
    · exact hc
  refine ⟨hnl, fun hc => by unfold stlNl; rw [if_pos hc], ?_⟩
  unfold stlNormal
  constructor
  · intro hz
    have h1 : (crossN t).1 / stlNl t = 0 := congrArg Prod.fst hz
    have h2 : (crossN t).2.1 / stlNl t = 0 :=
      congrArg Prod.fst (congrArg Prod.snd hz)
    have h3 : (crossN t).2.2 / stlNl t = 0 :=
      congrArg Prod.snd (congrArg Prod.snd hz)
    have e1 : (crossN t).1 = 0 := by
      rcases div_eq_zero_iff.mp h1 with h | h
      · exact h
      · exact absurd h hnl
    have e2 : (crossN t).2.1 = 0 := by
      rcases div_eq_zero_iff.mp h2 with h | h
      · exact h
      · exact absurd h hnl
    have e3 : (crossN t).2.2 = 0 := by
      rcases div_eq_zero_iff.mp h3 with h | h
      · exact h
      · exact absurd h hnl
    have : crossN t = ((crossN t).1, (crossN t).2.1, (crossN t).2.2) := rfl
    rw [this, e1, e2, e3]
  · intro hz
    rw [hz]
    simp

theorem c6_degenerate_guard_witness :
    stlNl ⟨⟨0, 0, 0⟩, ⟨1, 0, 0⟩, ⟨0, 1, 0⟩⟩ ≠ 0
    ∧ (crossLen ⟨⟨0, 0, 0⟩, ⟨1, 0, 0⟩, ⟨0, 1, 0⟩⟩ = 0 →
        stlNl ⟨⟨0, 0, 0⟩, ⟨1, 0, 0⟩, ⟨0, 1, 0⟩⟩ = 1)
    ∧ (stlNormal ⟨⟨0, 0, 0⟩, ⟨1, 0, 0⟩, ⟨0, 1, 0⟩⟩ = (0, 0, 0)
        ↔ crossN ⟨⟨0, 0, 0⟩, ⟨1, 0, 0⟩, ⟨0, 1, 0⟩⟩ = (0, 0, 0)) :=
  c6_degenerate_guard ⟨⟨0, 0, 0⟩, ⟨1, 0, 0⟩, ⟨0, 1, 0⟩⟩

/-- C3: serializing `N` triangles yields exactly `84 + 50·N` bytes; bytes
80–83 decode little-endian to `N` (the count is below `2^32`, as
`writeUInt32LE` requires); each 50-byte record is the triangle's record —
twelve little-endian float32 fields (3 normal components then the 9 vertex
coordinates of `v0`, `v1`, `v2` in order) followed by a 2-byte field equal
to `0`; and re-decoding each vertex float32 recovers the original
coordinate within binary32 precision (relative error `2^-24` plus the
subnormal quantum `2^-150`), for coordinates within the binary32 finite
range. -/
theorem c3_stl_binary_layout (tris : List Tri) (name : List Nat)
    (hN : tris.length < 4294967296)
    (hB : ∀ t ∈ tris, ∀ q ∈ triCoords t, |q| ≤ 2 ^ 127) :
    (meshTrianglesToBinarySTL tris name).length = 84 + 50 * tris.length
    ∧ u32dec (((meshTrianglesToBinarySTL tris name).drop 80).take 4)
        = tris.length
    ∧ ∀ i, ∀ hi : i < tris.length,
        ((meshTrianglesToBinarySTL tris name).drop (84 + 50 * i)).take 50
            = triRecord (tris.get ⟨i, hi⟩)
        ∧ (triRecord (tris.get ⟨i, hi⟩)).length = 50
        ∧ u16dec ((triRecord (tris.get ⟨i, hi⟩)).drop 48) = 0
        ∧ (∀ j, j < 12 →
            ((triRecord (tris.get ⟨i, hi⟩)).drop (4 * j)).take 4
              = f32le ((triFields (tris.get ⟨i, hi⟩)).getD j 0))
        ∧ (∀ j, j < 9 →
            |f32decBytes (((triRecord (tris.get ⟨i, hi⟩)).drop
                  (12 + 4 * j)).take 4)
                - (triCoords (tris.get ⟨i, hi⟩)).getD j 0|
              ≤ |(triCoords (tris.get ⟨i, hi⟩)).getD j 0| / 2 ^ 24
                + 1 / 2 ^ 150) := by
  refine ⟨stl_length tris name, ?_, ?_⟩
  · rw [stl_count_bytes]
    exact u32dec_u32le _ hN
  · intro i hi
    have hrec : ((meshTrianglesToBinarySTL tris name).drop
        (84 + 50 * i)).take 50 = triRecord (tris.get ⟨i, hi⟩) := by
      rw [← List.drop_drop, stl_drop84, flatMap_triRecord_drop]
      exact flatMap_triRecord_take tris i hi
    refine ⟨hrec, triRecord_length _, ?_, fun j hj => triRecord_chunk _ j hj,
      ?_⟩
    · rw [triRecord_attr]
      rfl
    · intro j hj
      rw [show 12 + 4 * j = 4 * (3 + j) from by ring,
        triRecord_chunk _ (3 + j) (by omega)]
      have hfld : (triFields (tris.get ⟨i, hi⟩)).getD (3 + j) 0
          = (triCoords (tris.get ⟨i, hi⟩)).getD j 0 := by
        unfold triFields
        rw [show 3 + j = j + 1 + 1 + 1 from by ring]
        simp only [List.cons_append, List.nil_append, List.getD_cons_succ]
      rw [hfld, f32decBytes_f32le]
      apply f32val_toF32_err
      apply hB (tris.get ⟨i, hi⟩) (tris.get_mem i hi)
      have hj9 : j < (triCoords (tris.get ⟨i, hi⟩)).length := by
        rw [show (triCoords (tris.get ⟨i, hi⟩)).length = 9 from rfl]
        exact hj
      rw [List.getD_eq_getElem _ _ hj9]
      exact List.getElem_mem hj9

theorem c3_stl_binary_layout_witness :
    ((1 : ℕ) < 4294967296
      ∧ ∀ t ∈ [(⟨⟨0, 0, 0⟩, ⟨0, 0, 1⟩, ⟨0, 1, 0⟩⟩ : Tri)],
          ∀ q ∈ triCoords t, |q| ≤ 2 ^ 127)
    ∧ ((meshTrianglesToBinarySTL [⟨⟨0, 0, 0⟩, ⟨0, 0, 1⟩, ⟨0, 1, 0⟩⟩]
          []).length
        = 84 + 50 * [(⟨⟨0, 0, 0⟩, ⟨0, 0, 1⟩, ⟨0, 1, 0⟩⟩ : Tri)].length
      ∧ u32dec (((meshTrianglesToBinarySTL [⟨⟨0, 0, 0⟩, ⟨0, 0, 1⟩, ⟨0, 1, 0⟩⟩]
            []).drop 80).take 4)
          = [(⟨⟨0, 0, 0⟩, ⟨0, 0, 1⟩, ⟨0, 1, 0⟩⟩ : Tri)].length
      ∧ ∀ i, ∀ hi : i < [(⟨⟨0, 0, 0⟩, ⟨0, 0, 1⟩, ⟨0, 1, 0⟩⟩ : Tri)].length,
          ((meshTrianglesToBinarySTL [⟨⟨0, 0, 0⟩, ⟨0, 0, 1⟩, ⟨0, 1, 0⟩⟩]
              []).drop (84 + 50 * i)).take 50
              = triRecord ([(⟨⟨0, 0, 0⟩, ⟨0, 0, 1⟩, ⟨0, 1, 0⟩⟩ :
                  Tri)].get ⟨i, hi⟩)
          ∧ (triRecord ([(⟨⟨0, 0, 0⟩, ⟨0, 0, 1⟩, ⟨0, 1, 0⟩⟩ :
              Tri)].get ⟨i, hi⟩)).length = 50
          ∧ u16dec ((triRecord ([(⟨⟨0, 0, 0⟩, ⟨0, 0, 1⟩, ⟨0, 1, 0⟩⟩ :
              Tri)].get ⟨i, hi⟩)).drop 48) = 0
          ∧ (∀ j, j < 12 →
              ((triRecord ([(⟨⟨0, 0, 0⟩, ⟨0, 0, 1⟩, ⟨0, 1, 0⟩⟩ :
                  Tri)].get ⟨i, hi⟩)).drop (4 * j)).take 4
                = f32le ((triFields ([(⟨⟨0, 0, 0⟩, ⟨0, 0, 1⟩, ⟨0, 1, 0⟩⟩ :
                    Tri)].get ⟨i, hi⟩)).getD j 0))
          ∧ (∀ j, j < 9 →
              |f32decBytes (((triRecord ([(⟨⟨0, 0, 0⟩, ⟨0, 0, 1⟩,
                    ⟨0, 1, 0⟩⟩ : Tri)].get ⟨i, hi⟩)).drop
                    (12 + 4 * j)).take 4)
                  - (triCoords ([(⟨⟨0, 0, 0⟩, ⟨0, 0, 1⟩, ⟨0, 1, 0⟩⟩ :
                      Tri)].get ⟨i, hi⟩)).getD j 0|
                ≤ |(triCoords ([(⟨⟨0, 0, 0⟩, ⟨0, 0, 1⟩, ⟨0, 1, 0⟩⟩ :
                    Tri)].get ⟨i, hi⟩)).getD j 0| / 2 ^ 24
                  + 1 / 2 ^ 150)) :=
  ⟨⟨by decide, by
      intro t ht q hq
      simp only [List.mem_singleton] at ht
      subst ht
      simp only [triCoords, List.mem_cons, List.not_mem_nil, or_false] at hq
      rcases hq with rfl | rfl | rfl | rfl | rfl | rfl | rfl | rfl | rfl <;>
        norm_num⟩,
    c3_stl_binary_layout [⟨⟨0, 0, 0⟩, ⟨0, 0, 1⟩, ⟨0, 1, 0⟩⟩] [] (by decide)
      (by
        intro t ht q hq
        simp only [List.mem_singleton] at ht
        subst ht
        simp only [triCoords, List.mem_cons, List.not_mem_nil, or_false] at hq
        rcases hq with rfl | rfl | rfl | rfl | rfl | rfl | rfl | rfl | rfl <;>
          norm_num)⟩
